import Mathlib

/-!
Shallow embedding of the `custom::vector` (src/vector.h) and `custom::priority_queue`
(src/priority_queue.h) classes, together with proofs about the claims of the
specification.

Modelling conventions:
* `T* data` is modelled as `Option (List α)`: `none` models a null pointer,
  `some buf` models an allocated buffer with `buf.length` slots.  `new T[n]`
  default-initialises its slots; we model the fresh buffer as
  `List.replicate n default` (an `Inhabited α` instance plays the role of the
  default-constructed element).
* `size_t` values are modelled as `Nat`; the source never produces values
  anywhere near overflow in the scenarios covered here.
* an unchecked C++ read `data[i]` is modelled by `List.getD` (reads past the
  buffer are undefined behaviour in the source; `getD` returns `default`
  there), and an unchecked write by `List.set` (which drops writes past the
  buffer, again undefined behaviour in the source).  Where a claim is about
  access bounds themselves (the copy constructor), reads and writes are
  modelled in the `Option` monad so that an out-of-bounds access is observable
  as `none`.
* `throw std::out_of_range` is modelled by returning `none` from an
  `Option`-valued embedding of the member function.
-/

set_option linter.unusedVariables false
set_option linter.unusedSectionVars false

namespace custom

/-- State of a `custom::vector<T>` (src/vector.h:40-149): member fields
`data`, `numCapacity`, `numElements`. -/
structure vector (α : Type) where
  data : Option (List α)
  numCapacity : Nat
  numElements : Nat
deriving DecidableEq

namespace vector

variable {α : Type}

/-- The buffer pointed to by `data` (empty if `data` is null). -/
def bufList (v : vector α) : List α := v.data.getD []

/-- Default constructor (src/vector.h:249-255): null buffer, zero capacity and size. -/
def mkDefault : vector α := ⟨none, 0, 0⟩

/-- `size()` (src/vector.h:136). -/
def size (v : vector α) : Nat := v.numElements

/-- `capacity()` (src/vector.h:137). -/
def capacity (v : vector α) : Nat := v.numCapacity

/-- `empty()` (src/vector.h:138). -/
def empty (v : vector α) : Bool := v.numElements == 0

/-- `operator[](index)` (src/vector.h:556-571): unchecked `data[index]`. -/
def get [Inhabited α] (v : vector α) (index : Nat) : α :=
  v.bufList.getD index default

/-- `front()` (src/vector.h:577-592): unchecked `data[0]`. -/
def front [Inhabited α] (v : vector α) : α := v.bufList.getD 0 default

/-- `back()` (src/vector.h:598-612): unchecked `data[numElements - 1]`. -/
def back [Inhabited α] (v : vector α) : α := v.bufList.getD (v.numElements - 1) default

/-- The copy loop `for (i = 0; i < n; i++) buf[i] = src.data[i];` used by
`push_back`, `reserve` and the assignment operator when moving elements into a
fresh buffer. Out-of-range writes (`List.set` past the end, undefined
behaviour in the source) are dropped. -/
def copyFirst [Inhabited α] (n : Nat) (src : vector α) (buf : List α) : List α :=
  (List.range n).foldl (fun b i => b.set i (src.get i)) buf

/-- `pop_back()` (src/vector.h:124-128): decrement `numElements` if positive. -/
def pop_back (v : vector α) : vector α :=
  if v.numElements > 0 then { v with numElements := v.numElements - 1 } else v

/-- `push_back(const T&)` (src/vector.h:622-650).  The move overload
`push_back(T&&)` (src/vector.h:652-681) has an identical body, so this single
embedding serves both. -/
def push_back [Inhabited α] (v : vector α) (t : α) : vector α :=
  let v1 :=
    if v.numElements ≥ v.numCapacity then
      -- if (data == nullptr) numCapacity = 1; else numCapacity *= 2;
      let newCapacity := if v.data.isNone then 1 else v.numCapacity * 2
      -- T* newData = new T[numCapacity]; for (i = 0; i < numElements; i++) newData[i] = data[i];
      let newData := copyFirst v.numElements v (List.replicate newCapacity default)
      { data := some newData, numCapacity := newCapacity, numElements := v.numElements }
    else v
  -- data[numElements] = t; numElements++;
  { v1 with data := some (v1.bufList.set v1.numElements t),
            numElements := v1.numElements + 1 }

/-- `reserve(newCapacity)` (src/vector.h:485-509).  Note the source returns
early only when `newCapacity == 0`; for any other value it reallocates, even
when `newCapacity` is smaller than the current capacity (and the copy loop
then writes past the new buffer whenever `numElements > newCapacity`). -/
def reserve [Inhabited α] (v : vector α) (newCapacity : Nat) : vector α :=
  if newCapacity = 0 then v
  else
    -- T* tempDataArray = new T[newCapacity]; for (i < numElements) temp[i] = data[i];
    let tempDataArray := copyFirst v.numElements v (List.replicate newCapacity default)
    { data := some tempDataArray, numCapacity := newCapacity, numElements := v.numElements }

/-- `std::swap(container[i], container[j])` on two buffer slots. -/
def swapAt [Inhabited α] (v : vector α) (i j : Nat) : vector α :=
  { v with data := some ((v.bufList.set i (v.get j)).set j (v.get i)) }

/-- Initializer-list constructor (src/vector.h:283-290): buffer holds exactly
the listed elements, capacity and size equal to the list length. -/
def ofInitList (l : List α) : vector α := ⟨some l, l.length, l.length⟩

/-- Copy constructor (src/vector.h:320-339), with every buffer access checked:
the source loop is `for (i = 0; i <= rhs.numElements; i++) data[i] = rhs.data[i];`
over a fresh buffer `new T[rhs.numElements]`; `List.range (n + 1)` models the
inclusive bound `i <= n`.  A `none` result signals that some iteration read or
wrote out of bounds. -/
def copyCtor [Inhabited α] (rhs : vector α) : Option (vector α) :=
  if rhs.numElements > 0 then
    ((List.range (rhs.numElements + 1)).foldlM
        (fun (buf : List α) i => do
          let x ← rhs.bufList[i]?
          if i < buf.length then some (buf.set i x) else none)
        (List.replicate rhs.numElements default)).map
      (fun buf => (⟨some buf, rhs.numElements, rhs.numElements⟩ : vector α))
  else
    some ⟨none, rhs.numElements, rhs.numElements⟩

/-- Move constructor (src/vector.h:345-365): returns the constructed vector
and the state the source is left in. -/
def moveCtor (rhs : vector α) : vector α × vector α :=
  (⟨if rhs.numElements > 0 then rhs.data else none, rhs.numCapacity, rhs.numElements⟩,
   ⟨none, 0, 0⟩)

/-- Copy assignment `operator=(const vector&)` (src/vector.h:690-722).
`same` models the address check `this == &rhs` (when `same = true` the caller
guarantees `lhs` and `rhs` are the same object).  Note the source's early
return when `rhs.data == nullptr`: it nulls `data` but leaves `numElements`
and `numCapacity` untouched. -/
def copyAssign [Inhabited α] (same : Bool) (lhs rhs : vector α) : vector α :=
  if same then lhs
  else if rhs.data.isNone then { lhs with data := none }
  else
    -- delete[] data; numElements = rhs.numElements;
    -- if (rhs.numCapacity > numCapacity) numCapacity = rhs.numCapacity;
    let newElements := rhs.numElements
    let newCapacity := if rhs.numCapacity > lhs.numCapacity then rhs.numCapacity else lhs.numCapacity
    -- data = new T[numCapacity]; for (i < numElements) data[i] = rhs.data[i];
    let newData := copyFirst newElements rhs (List.replicate newCapacity default)
    ⟨some newData, newCapacity, newElements⟩

/-- Move assignment `operator=(vector&&)` (src/vector.h:723-744): returns the
new states of the target and of the source.  Note the source's guard
`if (data)`: when the target's buffer pointer is null, nothing at all
happens. -/
def moveAssign (lhs rhs : vector α) : vector α × vector α :=
  if lhs.data.isSome then
    (⟨rhs.data, rhs.numCapacity, rhs.numElements⟩, ⟨none, 0, 0⟩)
  else (lhs, rhs)

/-- Well-formedness of a vector state: the recorded capacity is the real
buffer length, a zero capacity means a null pointer, and the logical size
fits.  This holds for every state reachable through the constructors and
`push_back`/`pop_back` (it can be broken by the buggy operations, which is
part of what the claims below are about). -/
def WF (v : vector α) : Prop :=
  (v.numCapacity = 0 → v.data = none) ∧
  v.bufList.length = v.numCapacity ∧
  v.numElements ≤ v.numCapacity

end vector

/-- The pointer member `p` of `vector<T>::iterator` (src/vector.h:240-241),
with the address modelled as a `Nat`. -/
structure vectorIterator where
  p : Nat
deriving DecidableEq

namespace vectorIterator

/-- `iterator::operator!=` (src/vector.h:183-193): returns `false` when the
pointers are equal, `true` otherwise. -/
def neq (lhs rhs : vectorIterator) : Bool :=
  if lhs.p = rhs.p then false else true

/-- `iterator::operator==` (src/vector.h:194-204): returns `true` when the
pointers are NOT equal, `false` otherwise (the branches are inverted in the
source). -/
def eq (lhs rhs : vectorIterator) : Bool :=
  if lhs.p ≠ rhs.p then true else false

end vectorIterator

/-- State of a `custom::priority_queue<T>` (src/priority_queue.h:33-127): the
single member `container`. -/
structure priority_queue (α : Type) where
  container : vector α
deriving DecidableEq

namespace priority_queue

variable {α : Type}

/-- Default constructor (src/priority_queue.h:53-55). -/
def mkDefault : priority_queue α := ⟨vector.mkDefault⟩

/-- `size()` (src/priority_queue.h:119-122). -/
def size (q : priority_queue α) : Nat := q.container.size

/-- `empty()` (src/priority_queue.h:123-126). -/
def empty (q : priority_queue α) : Bool := q.container.empty

/-- `top()` (src/priority_queue.h:135-146): `none` models the
`std::out_of_range` throw on an empty queue. -/
def top [Inhabited α] (q : priority_queue α) : Option α :=
  if q.empty then none else some q.container.front

/-- The `indexBigger` computation of `percolateDown`
(src/priority_queue.h:206-222), with `indexLeft = indexHeap * 2` and
`indexRight = indexHeap * 2 + 1` inlined: the child index holding the larger
value (the right child only when its value is strictly greater than the left
child's), or the left child when no right child is live. -/
def biggerChild [LinearOrder α] [Inhabited α] (v : vector α) (indexHeap : Nat) : Nat :=
  if indexHeap * 2 + 1 ≤ v.size then
    if v.get (indexHeap * 2 - 1) < v.get (indexHeap * 2 + 1 - 1) then indexHeap * 2 + 1
    else indexHeap * 2
  else indexHeap * 2

/-- One unfolding layer of `percolateDown(indexHeap)`
(src/priority_queue.h:203-234), acting on the `container` member; the result
also carries the returned `bool`.  The `fuel` argument only bounds the
recursion depth (the source's recursion strictly increases `indexBigger`
towards `size()`, so depth `size() + 1` is never exhausted); calling the
source with `indexHeap = 0` would read `container[size_t(-1)]`, which is
undefined — the program only ever calls it with `indexHeap ≥ 1`. -/
def percolateDownAux [LinearOrder α] [Inhabited α] :
    Nat → vector α → Nat → vector α × Bool
  | 0, v, _ => (v, false)
  | fuel + 1, v, indexHeap =>
    -- if (indexLeft > size()) return false;
    if indexHeap * 2 > v.size then (v, false)
    else
      -- if (container[indexHeap - 1] < container[indexBigger - 1]) { swap; recurse; return true; }
      if v.get (indexHeap - 1) < v.get (biggerChild v indexHeap - 1) then
        ((percolateDownAux fuel (v.swapAt (indexHeap - 1) (biggerChild v indexHeap - 1))
            (biggerChild v indexHeap)).1,
         true)
      else (v, false)

/-- `percolateDown(indexHeap)` (src/priority_queue.h:203-234). -/
def percolateDown [LinearOrder α] [Inhabited α] (v : vector α) (indexHeap : Nat) :
    vector α × Bool :=
  percolateDownAux (v.size + 1) v indexHeap

/-- `pop()` (src/priority_queue.h:152-159): swap front and back when
non-empty, `pop_back`, then `percolateDown(1)`. -/
def pop [LinearOrder α] [Inhabited α] (q : priority_queue α) : priority_queue α :=
  let c := if q.empty then q.container
           else q.container.swapAt 0 (q.container.numElements - 1)
  ⟨(percolateDown c.pop_back 1).1⟩

/-- The sift-up loop of `push(const T&)` (src/priority_queue.h:174-179):
`while (i > 1 && container[i-1] > container[i/2-1]) { swap; i /= 2; }`.
`fuel` starts at the initial value of `i` and bounds the number of
iterations, which halve `i` each time. -/
def pushAux [LinearOrder α] [Inhabited α] : Nat → vector α → Nat → vector α
  | 0, v, _ => v
  | fuel + 1, v, i =>
    if 1 < i ∧ v.get (i - 1) > v.get (i / 2 - 1) then
      pushAux fuel (v.swapAt (i - 1) (i / 2 - 1)) (i / 2)
    else v

/-- `push(const T& t)` (src/priority_queue.h:167-180): `push_back` then the
sift-up loop starting at `i = container.size()`. -/
def push [LinearOrder α] [Inhabited α] (q : priority_queue α) (t : α) : priority_queue α :=
  let c := q.container.push_back t
  ⟨pushAux c.size c c.size⟩

/-- The loop of `push(T&&)` (src/priority_queue.h:189-191):
`while (index && percolateDown(index)) index /= 2;`.  `fuel` starts at
`index + 1` and bounds the number of iterations, which halve `index` each
time. -/
def pushMoveAux [LinearOrder α] [Inhabited α] : Nat → vector α → Nat → vector α
  | 0, v, _ => v
  | fuel + 1, v, index =>
    if index ≠ 0 then
      if (percolateDown v index).2 then
        pushMoveAux fuel (percolateDown v index).1 (index / 2)
      else (percolateDown v index).1
    else v

/-- `push(T&& t)` (src/priority_queue.h:183-192): `push_back` then the
percolate-down loop starting at `index = container.size() / 2`. -/
def pushMove [LinearOrder α] [Inhabited α] (q : priority_queue α) (t : α) : priority_queue α :=
  let c := q.container.push_back t
  ⟨pushMoveAux (c.size / 2 + 1) c (c.size / 2)⟩

/-- The loop of `heapify()` (src/priority_queue.h:243-248):
`for (i = size()/2; i > 0; i--) percolateDown(i);` — the argument counts the
remaining iterations, so `heapifyAux v i` first calls `percolateDown` at `i`
and then continues downwards. -/
def heapifyAux [LinearOrder α] [Inhabited α] : vector α → Nat → vector α
  | v, 0 => v
  | v, i + 1 => heapifyAux (percolateDown v (i + 1)).1 i

/-- `heapify()` (src/priority_queue.h:243-248). -/
def heapify [LinearOrder α] [Inhabited α] (v : vector α) : vector α :=
  heapifyAux v (v.size / 2)

/-- Constructor from `custom::vector<T>&&` (src/priority_queue.h:82-88):
`container = std::move(rhs); heapify();` where `container` was just
default-constructed (null buffer). -/
def ofVectorMove [LinearOrder α] [Inhabited α] (rhs : vector α) : priority_queue α :=
  let c := (vector.moveAssign vector.mkDefault rhs).1
  ⟨heapify c⟩

end priority_queue

variable {α : Type}

/-- The max-heap property over the live slots of the container, in storage
(0-based) indexing: every non-root live slot is ≤ its parent slot
`(j - 1) / 2` (spec §3: "for every live heap index `i > 1`, the parent value
at `i/2` is ≥ the value at `i`"). -/
def heapOrdered [LinearOrder α] [Inhabited α] (v : vector α) : Prop :=
  ∀ j, 1 ≤ j → j < v.numElements → v.get j ≤ v.get ((j - 1) / 2)

/-- The sift-up invariant: the container is heap-ordered except possibly at
slot `s` (which may exceed its parent), and in addition the parent of `s`
dominates both children of `s`.  This is the standard invariant maintained
while a newly inserted element travels from the last slot towards the
root. -/
def siftInv [LinearOrder α] [Inhabited α] (v : vector α) (s : Nat) : Prop :=
  (∀ j, 1 ≤ j → j < v.numElements → j ≠ s → v.get j ≤ v.get ((j - 1) / 2)) ∧
  (∀ c, c < v.numElements → (c - 1) / 2 = s → 1 ≤ s → v.get c ≤ v.get ((s - 1) / 2))

/-- One `push` call, by copy (`push(const T&)`) or by move (`push(T&&)`). -/
inductive pushOp (α : Type) where
  | copy : α → pushOp α
  | move : α → pushOp α

/-- Apply one push operation to a queue. -/
def applyPush [LinearOrder α] [Inhabited α] (q : priority_queue α) :
    pushOp α → priority_queue α
  | .copy x => q.push x
  | .move x => q.pushMove x

/-- Run a sequence of push operations starting from a default-constructed
(empty) queue. -/
def runPushes [LinearOrder α] [Inhabited α] (ops : List (pushOp α)) : priority_queue α :=
  ops.foldl applyPush priority_queue.mkDefault

/-- Read `top()` then `pop()`, `n` times, collecting the observed tops
(`none` records the out-of-range condition of `top()` on an empty queue). -/
def drain [LinearOrder α] [Inhabited α] : Nat → priority_queue α → List (Option α)
  | 0, _ => []
  | n + 1, q => q.top :: drain n q.pop

/-- `pop()` applied `n` times. -/
def popN [LinearOrder α] [Inhabited α] : Nat → priority_queue α → priority_queue α
  | 0, q => q
  | n + 1, q => popN n q.pop

/-- The spec's concrete scenario: 5, 3, 8, 1, 9, 2 pushed in order onto an
empty queue through `push(const T&)`. -/
def pushScenarioCopy : priority_queue Int :=
  (((((priority_queue.mkDefault.push 5).push 3).push 8).push 1).push 9).push 2

/-- The same scenario through `push(T&&)` (which is what `pq.push(5)` with an
`int` literal actually overload-resolves to in the source). -/
def pushScenarioMove : priority_queue Int :=
  (((((priority_queue.mkDefault.pushMove 5).pushMove 3).pushMove 8).pushMove 1).pushMove 9).pushMove 2

/-- The spec's bulk-adoption scenario: the queue constructed by moving the
vector [3,1,4,1,5,9,2,6] into `priority_queue(custom::vector<T>&&)`. -/
def heapifyScenario : priority_queue Int :=
  priority_queue.ofVectorMove (vector.ofInitList [3, 1, 4, 1, 5, 9, 2, 6])

/-- Two `push_back`s then `reserve(1)` — a public operation sequence from a
default-constructed vector. -/
def c4Scenario : vector Int :=
  ((vector.mkDefault.push_back 1).push_back 2).reserve 1

/-- A vector with capacity 5 and no elements, obtained by `reserve(5)` on a
default-constructed vector. -/
def c5Scenario : vector Int := vector.mkDefault.reserve 5

namespace vector

variable [Inhabited α]

theorem copyFirst_succ (n : Nat) (src : vector α) (buf : List α) :
    copyFirst (n + 1) src buf = (copyFirst n src buf).set n (src.get n) := by
  unfold copyFirst
  rw [List.range_succ, List.foldl_append]
  rfl

theorem copyFirst_length (n : Nat) (src : vector α) (buf : List α) :
    (copyFirst n src buf).length = buf.length := by
  induction n with
  | zero => rfl
  | succ n ih => rw [copyFirst_succ, List.length_set, ih]

theorem copyFirst_getElem? (n : Nat) (src : vector α) (buf : List α) (j : Nat) :
    (copyFirst n src buf)[j]? =
      if j < n ∧ j < buf.length then some (src.get j) else buf[j]? := by
  induction n with
  | zero => simp [copyFirst]
  | succ n ih =>
    rw [copyFirst_succ, List.getElem?_set, copyFirst_length, ih]
    by_cases h1 : n = j
    · subst h1
      rw [if_pos rfl]
      by_cases hb : n < buf.length
      · rw [if_pos hb, if_pos ⟨n.lt_succ_self, hb⟩]
      · rw [if_neg hb, if_neg (by omega), List.getElem?_eq_none (by omega)]
    · rw [if_neg h1]
      by_cases h4 : j < n ∧ j < buf.length
      · rw [if_pos h4, if_pos ⟨by omega, h4.2⟩]
      · rw [if_neg h4, if_neg (by omega)]

theorem copyFirst_getD (n : Nat) (src : vector α) (buf : List α) (j : Nat) :
    (copyFirst n src buf).getD j default =
      if j < n ∧ j < buf.length then src.get j else buf.getD j default := by
  rw [List.getD_eq_getElem?_getD, copyFirst_getElem?]
  split_ifs with h
  · rfl
  · rw [List.getD_eq_getElem?_getD]

theorem swapAt_numElements (v : vector α) (i j : Nat) :
    (v.swapAt i j).numElements = v.numElements := rfl

theorem swapAt_numCapacity (v : vector α) (i j : Nat) :
    (v.swapAt i j).numCapacity = v.numCapacity := rfl

theorem swapAt_bufList (v : vector α) (i j : Nat) :
    (v.swapAt i j).bufList = (v.bufList.set i (v.get j)).set j (v.get i) := rfl

theorem swapAt_length (v : vector α) (i j : Nat) :
    (v.swapAt i j).bufList.length = v.bufList.length := by
  rw [swapAt_bufList, List.length_set, List.length_set]

theorem swapAt_get_right (v : vector α) (i j : Nat) (hj : j < v.bufList.length) :
    (v.swapAt i j).get j = v.get i := by
  show (v.swapAt i j).bufList.getD j default = _
  rw [swapAt_bufList, List.getD_eq_getElem?_getD,
    List.getElem?_set_self (by rw [List.length_set]; exact hj)]
  rfl

theorem swapAt_get_left (v : vector α) (i j : Nat) (hij : i ≠ j)
    (hi : i < v.bufList.length) : (v.swapAt i j).get i = v.get j := by
  show (v.swapAt i j).bufList.getD i default = _
  rw [swapAt_bufList, List.getD_eq_getElem?_getD,
    List.getElem?_set_ne (fun h => hij h.symm),
    List.getElem?_set_self hi]
  rfl

theorem swapAt_get_other (v : vector α) (i j k : Nat) (hki : k ≠ i) (hkj : k ≠ j) :
    (v.swapAt i j).get k = v.get k := by
  show (v.swapAt i j).bufList.getD k default = _
  rw [swapAt_bufList, List.getD_eq_getElem?_getD,
    List.getElem?_set_ne (fun h => hkj h.symm),
    List.getElem?_set_ne (fun h => hki h.symm),
    ← List.getD_eq_getElem?_getD]
  rfl

theorem swapAt_WF (v : vector α) (i j : Nat) (h : WF v) (hn : 1 ≤ v.numElements) :
    WF (v.swapAt i j) := by
  obtain ⟨h1, h2, h3⟩ := h
  refine ⟨fun hc => ?_, ?_, ?_⟩
  · rw [swapAt_numCapacity] at hc; omega
  · rw [swapAt_length, swapAt_numCapacity]; exact h2
  · rw [swapAt_numElements, swapAt_numCapacity]; exact h3

theorem mkDefault_WF : WF (mkDefault : vector α) :=
  ⟨fun _ => rfl, rfl, Nat.le_refl 0⟩

theorem push_back_spec (v : vector α) (t : α) (h : WF v) :
    WF (v.push_back t) ∧ (v.push_back t).numElements = v.numElements + 1 ∧
    (∀ j, j < v.numElements → (v.push_back t).get j = v.get j) ∧
    (v.push_back t).get v.numElements = t := by
  obtain ⟨h1, h2, h3⟩ := h
  by_cases hg : v.numElements ≥ v.numCapacity
  · by_cases hd : v.data.isNone
    · -- null buffer: v is exactly the default state
      have hdn : v.data = none := Option.isNone_iff_eq_none.mp hd
      have hcap0 : v.numCapacity = 0 := by
        rw [← h2]; unfold bufList; rw [hdn]; rfl
      have hn0 : v.numElements = 0 := by omega
      have hv : v = mkDefault := by
        cases v with
        | mk d c n => simp_all [mkDefault]
      subst hv
      have heq : (mkDefault : vector α).push_back t = ⟨some [t], 1, 1⟩ := rfl
      rw [heq]
      exact ⟨⟨fun hc => by simp at hc, rfl, le_refl 1⟩, rfl,
        fun j hj => absurd hj (by simp [mkDefault]), rfl⟩
    · -- allocated buffer: size equals capacity, capacity doubles
      have hcap1 : 1 ≤ v.numCapacity := by
        rcases Nat.eq_zero_or_pos v.numCapacity with h0 | h0
        · rw [h1 h0] at hd; exact absurd rfl hd
        · exact h0
      have hne : v.numElements = v.numCapacity := le_antisymm h3 hg
      have hdne : v.data.isNone = false := by
        cases hv : v.data.isNone
        · rfl
        · exact absurd hv hd
      have heq : v.push_back t =
          ⟨some ((copyFirst v.numElements v
              (List.replicate (v.numCapacity * 2) default)).set v.numElements t),
            v.numCapacity * 2, v.numElements + 1⟩ := by
        unfold push_back
        rw [if_pos hg, hdne]
        rfl
      rw [heq]
      have hrep : (List.replicate (v.numCapacity * 2) (default : α)).length
          = v.numCapacity * 2 := List.length_replicate _ _
      refine ⟨⟨fun hc => absurd (show v.numCapacity * 2 = 0 from hc) (by omega), ?_,
        show v.numElements + 1 ≤ v.numCapacity * 2 by omega⟩, rfl, ?_, ?_⟩
      · show ((copyFirst v.numElements v _).set v.numElements t).length = v.numCapacity * 2
        rw [List.length_set, copyFirst_length, hrep]
      · intro j hj
        show ((copyFirst v.numElements v _).set v.numElements t).getD j default = v.get j
        rw [List.getD_eq_getElem?_getD, List.getElem?_set_ne (by omega), copyFirst_getElem?,
          if_pos ⟨hj, by omega⟩]
        rfl
      · show ((copyFirst v.numElements v _).set v.numElements t).getD v.numElements default = t
        rw [List.getD_eq_getElem?_getD,
          List.getElem?_set_self (by rw [copyFirst_length, hrep]; omega)]
        rfl
  · -- spare capacity: write in place
    have hlt : v.numElements < v.numCapacity := by omega
    have heq : v.push_back t =
        ⟨some (v.bufList.set v.numElements t), v.numCapacity, v.numElements + 1⟩ := by
      unfold push_back
      rw [if_neg hg]
    rw [heq]
    refine ⟨⟨fun hc => absurd (show v.numCapacity = 0 from hc) (by omega), ?_,
      show v.numElements + 1 ≤ v.numCapacity by omega⟩, rfl, ?_, ?_⟩
    · show (v.bufList.set v.numElements t).length = v.numCapacity
      rw [List.length_set]; exact h2
    · intro j hj
      show (v.bufList.set v.numElements t).getD j default = v.get j
      rw [List.getD_eq_getElem?_getD, List.getElem?_set_ne (by omega),
        ← List.getD_eq_getElem?_getD]
      rfl
    · show (v.bufList.set v.numElements t).getD v.numElements default = t
      rw [List.getD_eq_getElem?_getD, List.getElem?_set_self (by omega)]
      rfl

end vector

end custom

namespace custom

variable {α : Type} [LinearOrder α] [Inhabited α]

theorem heapOrdered_root_max (v : vector α) (h : heapOrdered v) :
    ∀ j, j < v.numElements → v.get j ≤ v.get 0 := by
  intro j
  induction j using Nat.strong_induction_on with
  | _ j ih =>
    intro hj
    rcases Nat.eq_zero_or_pos j with h0 | h0
    · subst h0; exact le_refl _
    · exact le_trans (h j h0 hj) (ih ((j - 1) / 2) (by omega) (by omega))

theorem siftInv_done (v : vector α) (s : Nat) (hinv : siftInv v s)
    (h : s = 0 ∨ v.get s ≤ v.get ((s - 1) / 2)) : heapOrdered v := by
  intro j hj1 hjn
  by_cases hjs : j = s
  · subst hjs
    rcases h with h0 | hle
    · omega
    · exact hle
  · exact hinv.1 j hj1 hjn hjs

theorem sift_step (v v' : vector α) (s : Nat)
    (hs1 : 1 ≤ s) (hsn : s < v.numElements)
    (hn : v'.numElements = v.numElements)
    (hgp : v'.get ((s - 1) / 2) = v.get s)
    (hgs : v'.get s = v.get ((s - 1) / 2))
    (hother : ∀ k, k ≠ (s - 1) / 2 → k ≠ s → v'.get k = v.get k)
    (hinv : siftInv v s)
    (hviol : v.get ((s - 1) / 2) < v.get s) :
    siftInv v' ((s - 1) / 2) := by
  obtain ⟨inv1, inv2⟩ := hinv
  constructor
  · intro j hj1 hjn' hjp
    rw [hn] at hjn'
    by_cases hjs : j = s
    · subst hjs
      rw [hgs, hgp]
      exact le_of_lt hviol
    · by_cases hpp : (j - 1) / 2 = (s - 1) / 2
      · rw [hother j hjp hjs, hpp, hgp]
        calc v.get j ≤ v.get ((j - 1) / 2) := inv1 j hj1 hjn' hjs
          _ = v.get ((s - 1) / 2) := by rw [hpp]
          _ ≤ v.get s := le_of_lt hviol
      · by_cases hps : (j - 1) / 2 = s
        · rw [hother j hjp hjs, hps, hgs]
          exact inv2 j hjn' hps hs1
        · rw [hother j hjp hjs, hother _ hpp hps]
          exact inv1 j hj1 hjn' hjs
  · intro c hcn' hcp hp1
    rw [hn] at hcn'
    have hpltn : (s - 1) / 2 < v.numElements := by omega
    have hpnes : (s - 1) / 2 ≠ s := by omega
    have hgg1 : ((s - 1) / 2 - 1) / 2 ≠ (s - 1) / 2 := by omega
    have hgg2 : ((s - 1) / 2 - 1) / 2 ≠ s := by omega
    rw [hother _ hgg1 hgg2]
    have hParP : v.get ((s - 1) / 2) ≤ v.get (((s - 1) / 2 - 1) / 2) :=
      inv1 _ hp1 hpltn hpnes
    by_cases hcs : c = s
    · subst hcs
      rw [hgs]
      exact hParP
    · have hcp' : c ≠ (s - 1) / 2 := by omega
      have hc1 : 1 ≤ c := by omega
      rw [hother c hcp' hcs]
      calc v.get c ≤ v.get ((c - 1) / 2) := inv1 c hc1 hcn' hcs
        _ = v.get ((s - 1) / 2) := by rw [hcp]
        _ ≤ v.get (((s - 1) / 2 - 1) / 2) := hParP

namespace priority_queue

theorem biggerChild_le (v : vector α) (k : Nat) (hk : 1 ≤ k) (h2 : k * 2 ≤ v.numElements)
    (hL : v.get (k * 2 - 1) ≤ v.get (k - 1))
    (hR : k * 2 + 1 ≤ v.numElements → v.get (k * 2) ≤ v.get (k - 1)) :
    v.get (biggerChild v k - 1) ≤ v.get (k - 1) := by
  unfold biggerChild
  split_ifs with ha hb
  · have h : k * 2 + 1 - 1 = k * 2 := rfl
    rw [h]
    exact hR ha
  · exact hL
  · exact hL

theorem percolateDownAux_no_swap (fuel : Nat) (v : vector α) (k : Nat) (hk : 1 ≤ k)
    (hL : k * 2 ≤ v.numElements → v.get (k * 2 - 1) ≤ v.get (k - 1))
    (hR : k * 2 + 1 ≤ v.numElements → v.get (k * 2) ≤ v.get (k - 1)) :
    percolateDownAux fuel v k = (v, false) := by
  cases fuel with
  | zero => rfl
  | succ fuel =>
    have hs : v.size = v.numElements := rfl
    unfold percolateDownAux
    by_cases h1 : k * 2 > v.size
    · rw [if_pos h1]
    · rw [if_neg h1]
      have h2 : k * 2 ≤ v.numElements := by omega
      rw [if_neg (not_lt.mpr (biggerChild_le v k hk h2 (hL h2) hR))]

theorem percolateDown_of_heap (v : vector α) (k : Nat) (hk : 1 ≤ k)
    (hheap : heapOrdered v) : percolateDown v k = (v, false) := by
  apply percolateDownAux_no_swap _ v k hk
  · intro h2
    have h := hheap (k * 2 - 1) (by omega) (by omega)
    have he : (k * 2 - 1 - 1) / 2 = k - 1 := by omega
    rwa [he] at h
  · intro h2
    have h := hheap (k * 2) (by omega) (by omega)
    have he : (k * 2 - 1) / 2 = k - 1 := by omega
    rwa [he] at h

theorem biggerChild_eq (v : vector α) (k s : Nat) (hk : 1 ≤ k) (hs1 : 1 ≤ s)
    (hsn : s < v.numElements) (hpar : (s - 1) / 2 = k - 1)
    (hinv : siftInv v s) (hviol : v.get (k - 1) < v.get s) :
    biggerChild v k = s + 1 := by
  have hs' : v.size = v.numElements := rfl
  have hcases : s = k * 2 - 1 ∨ s = k * 2 := by omega
  unfold biggerChild
  rcases hcases with hsl | hsr
  · by_cases ha : k * 2 + 1 ≤ v.size
    · rw [if_pos ha]
      have hother : v.get (k * 2) ≤ v.get (k - 1) := by
        have h := hinv.1 (k * 2) (by omega) (by omega) (by omega)
        have he : (k * 2 - 1) / 2 = k - 1 := by omega
        rwa [he] at h
      have hnotlt : ¬ (v.get (k * 2 - 1) < v.get (k * 2 + 1 - 1)) := by
        have he : k * 2 + 1 - 1 = k * 2 := rfl
        rw [he, ← hsl]
        exact not_lt.mpr (le_of_lt (lt_of_le_of_lt hother hviol))
      rw [if_neg hnotlt]
      omega
    · rw [if_neg ha]
      omega
  · have ha : k * 2 + 1 ≤ v.size := by omega
    rw [if_pos ha]
    have hleft : v.get (k * 2 - 1) ≤ v.get (k - 1) := by
      have h := hinv.1 (k * 2 - 1) (by omega) (by omega) (by omega)
      have he : (k * 2 - 1 - 1) / 2 = k - 1 := by omega
      rwa [he] at h
    have hlt : v.get (k * 2 - 1) < v.get (k * 2 + 1 - 1) := by
      have he : k * 2 + 1 - 1 = k * 2 := rfl
      rw [hsr] at hviol
      rw [he]
      exact lt_of_le_of_lt hleft hviol
    rw [if_pos hlt]
    omega

theorem percolateDown_swap_case (v : vector α) (k s : Nat) (hk : 1 ≤ k) (hs1 : 1 ≤ s)
    (hsn : s < v.numElements) (hpar : (s - 1) / 2 = k - 1)
    (hlen : v.numElements ≤ v.bufList.length)
    (hinv : siftInv v s) (hviol : v.get (k - 1) < v.get s) :
    percolateDown v k = (v.swapAt (k - 1) s, true) := by
  have hs' : v.size = v.numElements := rfl
  have hbig : biggerChild v k = s + 1 := biggerChild_eq v k s hk hs1 hsn hpar hinv hviol
  have hred : s + 1 - 1 = s := rfl
  have hne : (v.swapAt (k - 1) s).numElements = v.numElements := vector.swapAt_numElements v _ _
  have hsl : s < v.bufList.length := by omega
  have hgetS : (v.swapAt (k - 1) s).get s = v.get (k - 1) := vector.swapAt_get_right v _ s hsl
  have hL : (s + 1) * 2 ≤ (v.swapAt (k - 1) s).numElements →
      (v.swapAt (k - 1) s).get ((s + 1) * 2 - 1) ≤ (v.swapAt (k - 1) s).get (s + 1 - 1) := by
    intro h2
    rw [hne] at h2
    have hidx : (s + 1) * 2 - 1 = 2 * s + 1 := by omega
    have ho : (v.swapAt (k - 1) s).get (2 * s + 1) = v.get (2 * s + 1) :=
      vector.swapAt_get_other v _ _ _ (by omega) (by omega)
    rw [hred, hidx, ho, hgetS]
    have h := hinv.2 (2 * s + 1) (by omega) (by omega) hs1
    rwa [hpar] at h
  have hR : (s + 1) * 2 + 1 ≤ (v.swapAt (k - 1) s).numElements →
      (v.swapAt (k - 1) s).get ((s + 1) * 2) ≤ (v.swapAt (k - 1) s).get (s + 1 - 1) := by
    intro h2
    rw [hne] at h2
    have hidx : (s + 1) * 2 = 2 * s + 2 := by omega
    have ho : (v.swapAt (k - 1) s).get (2 * s + 2) = v.get (2 * s + 2) :=
      vector.swapAt_get_other v _ _ _ (by omega) (by omega)
    rw [hidx, ho, hred, hgetS]
    have h := hinv.2 (2 * s + 2) (by omega) (by omega) hs1
    rwa [hpar] at h
  show percolateDownAux (v.size + 1) v k = _
  unfold percolateDownAux
  have hnotgt : ¬ (k * 2 > v.size) := by omega
  rw [if_neg hnotgt, hbig, hred, if_pos hviol,
    percolateDownAux_no_swap v.size (v.swapAt (k - 1) s) (s + 1) (by omega) hL hR]

theorem pushAux_heap : ∀ i fuel (v : vector α), i ≤ fuel → 1 ≤ i → i ≤ v.numElements →
    vector.WF v → siftInv v (i - 1) →
    heapOrdered (pushAux fuel v i) ∧
    (pushAux fuel v i).numElements = v.numElements ∧
    vector.WF (pushAux fuel v i) := by
  intro i
  induction i using Nat.strong_induction_on with
  | _ i ih =>
    intro fuel v hfuel hi1 hin hwf hinv
    obtain ⟨f, rfl⟩ : ∃ f, fuel = f + 1 := ⟨fuel - 1, by omega⟩
    by_cases hcond : 1 < i ∧ v.get (i - 1) > v.get (i / 2 - 1)
    · have heq : pushAux (f + 1) v i = pushAux f (v.swapAt (i - 1) (i / 2 - 1)) (i / 2) := by
        conv_lhs => unfold pushAux
        rw [if_pos hcond]
      rw [heq]
      obtain ⟨hii, hgt⟩ := hcond
      have hlen : v.numElements ≤ v.bufList.length := by
        have e1 := hwf.2.1
        have e2 := hwf.2.2
        omega
      have hps : i / 2 - 1 = (i - 1 - 1) / 2 := by omega
      have hgp : (v.swapAt (i - 1) (i / 2 - 1)).get ((i - 1 - 1) / 2) = v.get (i - 1) := by
        rw [← hps]
        exact vector.swapAt_get_right v (i - 1) (i / 2 - 1) (by omega)
      have hgs : (v.swapAt (i - 1) (i / 2 - 1)).get (i - 1) = v.get ((i - 1 - 1) / 2) := by
        rw [← hps]
        exact vector.swapAt_get_left v (i - 1) (i / 2 - 1) (by omega) (by omega)
      have hother : ∀ m, m ≠ (i - 1 - 1) / 2 → m ≠ i - 1 →
          (v.swapAt (i - 1) (i / 2 - 1)).get m = v.get m := by
        intro m h1 h2
        exact vector.swapAt_get_other v _ _ _ h2 (by omega)
      have hviol : v.get ((i - 1 - 1) / 2) < v.get (i - 1) := by
        have h : v.get (i / 2 - 1) < v.get (i - 1) := hgt
        rwa [hps] at h
      have hinv' := sift_step v (v.swapAt (i - 1) (i / 2 - 1)) (i - 1)
        (by omega) (by omega) (vector.swapAt_numElements v _ _) hgp hgs hother hinv hviol
      rw [← hps] at hinv'
      have hwf' := vector.swapAt_WF v (i - 1) (i / 2 - 1) hwf (by omega)
      have hres := ih (i / 2) (by omega) f (v.swapAt (i - 1) (i / 2 - 1))
        (by omega) (by omega)
        (by rw [vector.swapAt_numElements]; omega) hwf' hinv'
      obtain ⟨ha, hb, hc⟩ := hres
      exact ⟨ha, by rw [hb, vector.swapAt_numElements], hc⟩
    · have heq : pushAux (f + 1) v i = v := by
        conv_lhs => unfold pushAux
        rw [if_neg hcond]
      rw [heq]
      refine ⟨?_, rfl, hwf⟩
      apply siftInv_done v (i - 1) hinv
      by_cases hii : i = 1
      · left; omega
      · right
        have hgt' : ¬ v.get (i - 1) > v.get (i / 2 - 1) := fun h => hcond ⟨by omega, h⟩
        have he : (i - 1 - 1) / 2 = i / 2 - 1 := by omega
        rw [he]
        exact not_lt.mp hgt'

theorem pushMoveAux_zero (fuel : Nat) (v : vector α) : pushMoveAux fuel v 0 = v := by
  cases fuel <;> simp [pushMoveAux]

theorem pushMoveAux_heap : ∀ k fuel (v : vector α) s, k + 1 ≤ fuel → 1 ≤ k → 1 ≤ s →
    s < v.numElements → (s - 1) / 2 = k - 1 → vector.WF v → siftInv v s →
    heapOrdered (pushMoveAux fuel v k) ∧
    (pushMoveAux fuel v k).numElements = v.numElements ∧
    vector.WF (pushMoveAux fuel v k) := by
  intro k
  induction k using Nat.strong_induction_on with
  | _ k ih =>
    intro fuel v s hfuel hk1 hs1 hsn hpar hwf hinv
    obtain ⟨f, rfl⟩ : ∃ f, fuel = f + 1 := ⟨fuel - 1, by omega⟩
    have hk0 : k ≠ 0 := by omega
    have hlen : v.numElements ≤ v.bufList.length := by
      have e1 := hwf.2.1
      have e2 := hwf.2.2
      omega
    rcases le_or_lt (v.get s) (v.get (k - 1)) with hle | hviol
    · have hheap : heapOrdered v := siftInv_done v s hinv (Or.inr (by rw [hpar]; exact hle))
      have hpd : percolateDown v k = (v, false) := percolateDown_of_heap v k hk1 hheap
      have heq : pushMoveAux (f + 1) v k = v := by
        conv_lhs => unfold pushMoveAux
        rw [if_pos hk0, hpd]
        rfl
      rw [heq]
      exact ⟨hheap, rfl, hwf⟩
    · have hpd := percolateDown_swap_case v k s hk1 hs1 hsn hpar hlen hinv hviol
      have heq : pushMoveAux (f + 1) v k = pushMoveAux f (v.swapAt (k - 1) s) (k / 2) := by
        conv_lhs => unfold pushMoveAux
        rw [if_pos hk0, hpd]
        rfl
      have hknes : k - 1 ≠ s := by omega
      have hgp : (v.swapAt (k - 1) s).get ((s - 1) / 2) = v.get s := by
        rw [hpar]
        exact vector.swapAt_get_left v (k - 1) s hknes (by omega)
      have hgs : (v.swapAt (k - 1) s).get s = v.get ((s - 1) / 2) := by
        rw [hpar]
        exact vector.swapAt_get_right v (k - 1) s (by omega)
      have hother : ∀ m, m ≠ (s - 1) / 2 → m ≠ s →
          (v.swapAt (k - 1) s).get m = v.get m := by
        intro m h1 h2
        exact vector.swapAt_get_other v _ _ _ (by omega) h2
      have hviol' : v.get ((s - 1) / 2) < v.get s := by rw [hpar]; exact hviol
      have hinv' := sift_step v (v.swapAt (k - 1) s) s hs1 hsn
        (vector.swapAt_numElements v _ _) hgp hgs hother hinv hviol'
      rw [hpar] at hinv'
      have hwf' := vector.swapAt_WF v (k - 1) s hwf (by omega)
      rw [heq]
      by_cases hk2 : k = 1
      · subst hk2
        rw [show (1 : Nat) / 2 = 0 from rfl, pushMoveAux_zero]
        refine ⟨?_, vector.swapAt_numElements v _ _, hwf'⟩
        exact siftInv_done _ 0 hinv' (Or.inl rfl)
      · have hres := ih (k / 2) (by omega) f (v.swapAt (k - 1) s) (k - 1)
          (by omega) (by omega) (by omega)
          (by rw [vector.swapAt_numElements]; omega)
          (by omega) hwf' hinv'
        obtain ⟨ha, hb, hc⟩ := hres
        exact ⟨ha, by rw [hb, vector.swapAt_numElements], hc⟩

theorem siftInv_push_back (v : vector α) (t : α) (hwf : vector.WF v)
    (hheap : heapOrdered v) : siftInv (v.push_back t) v.numElements := by
  obtain ⟨hwf', hn, hget, hgetn⟩ := vector.push_back_spec v t hwf
  constructor
  · intro j hj1 hjn hjne
    rw [hn] at hjn
    have hj : j < v.numElements := by omega
    rw [hget j hj, hget ((j - 1) / 2) (by omega)]
    exact hheap j hj1 hj
  · intro c hc hcp h1
    rw [hn] at hc
    omega

theorem push_preserves (q : priority_queue α) (t : α) (hwf : vector.WF q.container)
    (hheap : heapOrdered q.container) :
    vector.WF (q.push t).container ∧ heapOrdered (q.push t).container ∧
    (q.push t).container.numElements = q.container.numElements + 1 := by
  obtain ⟨hwf', hn, hget, hgetn⟩ := vector.push_back_spec q.container t hwf
  have hinv : siftInv (q.container.push_back t)
      ((q.container.push_back t).numElements - 1) := by
    rw [hn, Nat.add_sub_cancel]
    exact siftInv_push_back q.container t hwf hheap
  have hres := pushAux_heap (q.container.push_back t).size (q.container.push_back t).size
    (q.container.push_back t) (le_refl _)
    (by show 1 ≤ (q.container.push_back t).numElements; omega)
    (le_refl _) hwf' hinv
  obtain ⟨ha, hb, hc⟩ := hres
  have hcont : (q.push t).container = pushAux (q.container.push_back t).size
      (q.container.push_back t) (q.container.push_back t).size := rfl
  refine ⟨?_, ?_, ?_⟩
  · rw [hcont]; exact hc
  · rw [hcont]; exact ha
  · rw [hcont, hb, hn]

theorem pushMove_preserves (q : priority_queue α) (t : α) (hwf : vector.WF q.container)
    (hheap : heapOrdered q.container) :
    vector.WF (q.pushMove t).container ∧ heapOrdered (q.pushMove t).container ∧
    (q.pushMove t).container.numElements = q.container.numElements + 1 := by
  obtain ⟨hwf', hn, hget, hgetn⟩ := vector.push_back_spec q.container t hwf
  have hcont : (q.pushMove t).container = pushMoveAux ((q.container.push_back t).size / 2 + 1)
      (q.container.push_back t) ((q.container.push_back t).size / 2) := rfl
  by_cases h0 : q.container.numElements = 0
  · -- the queue was empty: the new size is 1 and the loop index is 0
    have hsz : (q.container.push_back t).size = 1 := by
      show (q.container.push_back t).numElements = 1
      omega
    rw [hcont, hsz, show (1 : Nat) / 2 = 0 from rfl, pushMoveAux_zero]
    refine ⟨hwf', ?_, by omega⟩
    intro j hj1 hjn
    rw [hn] at hjn
    omega
  · have hs1 : 1 ≤ q.container.numElements := by omega
    have hsz : (q.container.push_back t).size = q.container.numElements + 1 := hn
    have hres := pushMoveAux_heap ((q.container.push_back t).size / 2)
      ((q.container.push_back t).size / 2 + 1) (q.container.push_back t)
      q.container.numElements (le_refl _)
      (by rw [hsz]; omega) hs1 (by omega)
      (by rw [hsz]; omega) hwf'
      (siftInv_push_back q.container t hwf hheap)
    obtain ⟨ha, hb, hc⟩ := hres
    refine ⟨?_, ?_, ?_⟩
    · rw [hcont]; exact hc
    · rw [hcont]; exact ha
    · rw [hcont, hb, hn]

end priority_queue

theorem runPushes_invariant (ops : List (pushOp α)) :
    vector.WF (runPushes ops).container ∧ heapOrdered (runPushes ops).container := by
  suffices h : ∀ q : priority_queue α, vector.WF q.container → heapOrdered q.container →
      vector.WF (ops.foldl applyPush q).container ∧
      heapOrdered (ops.foldl applyPush q).container by
    refine h priority_queue.mkDefault vector.mkDefault_WF ?_
    intro j hj1 hjn
    have he : (priority_queue.mkDefault : priority_queue α).container.numElements = 0 := rfl
    omega
  induction ops with
  | nil => exact fun q h1 h2 => ⟨h1, h2⟩
  | cons op ops ih =>
    intro q h1 h2
    cases op with
    | copy x =>
      obtain ⟨ha, hb, _⟩ := priority_queue.push_preserves q x h1 h2
      exact ih (q.push x) ha hb
    | move x =>
      obtain ⟨ha, hb, _⟩ := priority_queue.pushMove_preserves q x h1 h2
      exact ih (q.pushMove x) ha hb

/-- C1: for every sequence of `push` operations (each by copy or by move)
starting from an empty `priority_queue`, the element at the root (storage
index 0) is ≥ every other live element of the container.  Quantifying over
all sequences covers the state after each individual push, since every prefix
of a sequence is itself a sequence. -/
theorem C1_push_root_max {β : Type} [LinearOrder β] [Inhabited β]
    (ops : List (pushOp β)) (j : Nat) (hj : j < (runPushes ops).size) :
    (runPushes ops).container.get j ≤ (runPushes ops).container.get 0 :=
  heapOrdered_root_max _ (runPushes_invariant ops).2 j hj

/-- Witness for C1 at a concrete push sequence and live index. -/
theorem C1_push_root_max_witness :
    2 < (runPushes [pushOp.copy (3 : Int), pushOp.move 9, pushOp.copy 5]).size ∧
    (runPushes [pushOp.copy (3 : Int), pushOp.move 9, pushOp.copy 5]).container.get 2 ≤
      (runPushes [pushOp.copy (3 : Int), pushOp.move 9, pushOp.copy 5]).container.get 0 :=
  ⟨by decide, C1_push_root_max [pushOp.copy (3 : Int), pushOp.move 9, pushOp.copy 5] 2 (by decide)⟩

/-- C2: pushing 5, 3, 8, 1, 9, 2 in that order onto an empty queue and then
repeatedly reading `top()` and calling `pop()` yields 9, 8, 5, 3, 2, 1 and
leaves the queue empty, through either `push` overload. -/
theorem C2_push_pop_sequence :
    (drain 6 pushScenarioCopy =
        [some 9, some 8, some 5, some 3, some 2, some 1] ∧
      (popN 6 pushScenarioCopy).empty = true) ∧
    (drain 6 pushScenarioMove =
        [some 9, some 8, some 5, some 3, some 2, some 1] ∧
      (popN 6 pushScenarioMove).empty = true) := by
  decide

/-- C3 (divergence witness): constructing from the vector [3,1,4,1,5,9,2,6]
by move leaves the queue EMPTY — the member `container` is default-constructed
with a null buffer, so the move assignment inside the constructor
(src/vector.h:727 `if (data)`) does nothing and `heapify` runs over zero
elements.  `top()` then signals out-of-range instead of returning 9. -/
theorem C3_heapify_ctor_empty :
    heapifyScenario.top = none ∧ heapifyScenario.size = 0 ∧
    (vector.ofInitList [3, 1, 4, 1, 5, 9, 2, 6] : vector Int).size = 8 := by
  decide

/-- C4 (divergence witness): after `push_back(1)`, `push_back(2)`,
`reserve(1)` the vector reports `size() = 2` and `capacity() = 1`, violating
`size() <= capacity()` (the copy loop inside `reserve` also writes two
elements into the one-slot buffer, a heap overflow in the source). -/
theorem C4_size_capacity_violation :
    c4Scenario.size = 2 ∧ c4Scenario.capacity = 1 := by
  decide

/-- C5 (divergence witness): `reserve(3)` on a vector with `capacity() = 5`
is not a no-op — it reallocates and shrinks the capacity to exactly 3. -/
theorem C5_reserve_shrinks :
    c5Scenario.capacity = 5 ∧ 3 ≤ c5Scenario.capacity ∧
    (c5Scenario.reserve 3).capacity = 3 := by
  decide

/-- C6 (divergence witness): move-assigning the one-element vector [7] into a
default-constructed target does nothing at all — the target keeps `size() = 0`
and the source keeps its element — because of the `if (data)` guard
(src/vector.h:727). -/
theorem C6_move_assign_into_default_noop :
    (vector.moveAssign vector.mkDefault (vector.ofInitList ([7] : List Int))).1 =
      vector.mkDefault ∧
    (vector.moveAssign vector.mkDefault (vector.ofInitList ([7] : List Int))).2 =
      vector.ofInitList [7] := by
  decide

/-- C7 (divergence witness): copy-assigning a default-constructed (null
buffer) source into the one-element target [1] leaves the target's logical
size at 1 (not the source's 0) while nulling its buffer pointer. -/
theorem C7_copy_assign_null_source :
    (vector.copyAssign false (vector.ofInitList ([1] : List Int)) vector.mkDefault).size = 1 ∧
    (vector.mkDefault : vector Int).size = 0 ∧
    (vector.copyAssign false (vector.ofInitList ([1] : List Int)) vector.mkDefault).data = none := by
  decide

/-- C8 (divergence witness): the checked embedding of the copy constructor
reports an out-of-bounds access on the one-element source [7]: the loop bound
`i <= rhs.numElements` makes the last iteration read `rhs.data[1]` and write
`data[1]` past both one-slot buffers. -/
theorem C8_copy_ctor_oob :
    vector.copyCtor (vector.ofInitList ([7] : List Int)) = none := by
  decide

/-- C9: on an empty `priority_queue`, `top()` signals the out-of-range
condition (modelled as `none`) while `pop()` succeeds and leaves the queue
completely unchanged (hence still empty). -/
theorem C9_empty_top_pop {β : Type} [LinearOrder β] [Inhabited β]
    (q : priority_queue β) (h : q.size = 0) :
    q.top = none ∧ q.pop = q := by
  have hn : q.container.numElements = 0 := h
  have hempty : q.empty = true := by
    show (q.container.numElements == 0) = true
    rw [hn]
    rfl
  constructor
  · show (if q.empty then none else some q.container.front) = none
    rw [hempty]
    rfl
  · show (⟨(priority_queue.percolateDown (if q.empty then q.container
        else q.container.swapAt 0 (q.container.numElements - 1)).pop_back 1).1⟩ :
        priority_queue β) = q
    rw [hempty]
    show (⟨(priority_queue.percolateDown q.container.pop_back 1).1⟩ : priority_queue β) = q
    have hpb : q.container.pop_back = q.container := by
      unfold vector.pop_back
      rw [if_neg (by omega)]
    rw [hpb]
    have hpd : priority_queue.percolateDown q.container 1 = (q.container, false) := by
      show priority_queue.percolateDownAux (q.container.size + 1) q.container 1 = _
      have hsz : q.container.size = 0 := hn
      conv_lhs => unfold priority_queue.percolateDownAux
      rw [if_pos (by rw [hsz]; omega)]
    rw [hpd]

/-- Witness for C9 at the default-constructed queue. -/
theorem C9_empty_top_pop_witness :
    (priority_queue.mkDefault : priority_queue Int).size = 0 ∧
    ((priority_queue.mkDefault : priority_queue Int).top = none ∧
      (priority_queue.mkDefault : priority_queue Int).pop = priority_queue.mkDefault) :=
  ⟨rfl, C9_empty_top_pop priority_queue.mkDefault rfl⟩

/-- C10: `iterator::operator==` returns `true` exactly when the two internal
pointers differ, and `iterator::operator!=` also returns `true` exactly when
the pointers differ, so the two operators agree on every pair of iterators. -/
theorem C10_iterator_eq_neq (a b : vectorIterator) :
    (vectorIterator.eq a b = true ↔ a.p ≠ b.p) ∧
    (vectorIterator.neq a b = true ↔ a.p ≠ b.p) ∧
    vectorIterator.eq a b = vectorIterator.neq a b := by
  unfold vectorIterator.eq vectorIterator.neq
  by_cases h : a.p = b.p <;> simp [h]

end custom
